import Mathlib

/-!
Verification development for the PS-Analytics repository.

The embedding covers the two source files:
  * src/extract.py    : fetch_page and fetch_all_features (ArcGIS pagination)
  * src/processing.py : remove_outliers_iqr and validate_gdf (cleaning cascade)

Dataframes are modelled as lists of index-labelled association-list rows; cell
values are exact rationals, strings, nulls (None and NaN are collapsed) and
geometry objects reduced to their validity bit.  Numeric columns are modelled
as nullable numeric series: a comparison against a null cell yields a missing
boolean, which fillna then replaces, matching lines 122-129 of processing.py.
Pandas index alignment of boolean series (union of labels, missing positions
filled with False) and boolean-series row selection (the mask is reindexed to
the frame labels) are modelled explicitly, since remove_outliers_iqr carries
its keep_mask across reset_index calls.
-/

namespace PSA

/-- Cell values: numbers (exact rationals), strings, the missing value, and
geometry objects modelled by their validity bit, since validate_gdf only
queries notna and is_valid on them. -/
inductive Val where
  | num (q : ℚ)
  | str (s : String)
  | null
  | geom (valid : Bool)
deriving DecidableEq, Repr

/-- A dataframe row: an association list from column names to cell values. -/
abbrev Row := List (String × Val)

/-- Reading a cell of a row; a column absent from the row reads as null. -/
def Row.getV (r : Row) (c : String) : Val :=
  (r.lookup c).getD Val.null

/-- Writing one cell of a row, as a column assignment does rowwise. -/
def Row.setV (r : Row) (c : String) (v : Val) : Row :=
  if (r.lookup c).isSome then
    r.map (fun p => if p.1 = c then (p.1, v) else p)
  else r ++ [(c, v)]

/-- A dataframe: its column names and its rows paired with index labels. -/
structure Table where
  cols : List String
  entries : List (Nat × Row)
deriving DecidableEq, Repr

/-- The empty dataframe. -/
def Table.empty : Table := ⟨[], []⟩

/-- Number of rows of a dataframe. -/
def Table.rowCount (t : Table) : Nat := t.entries.length

/-- Fresh dense 0-based index, as produced by reset_index(drop=True). -/
def resetIndex (es : List (Nat × Row)) : List (Nat × Row) :=
  (es.map Prod.snd).enum

/-- Failure modes of the pandas layer as used by the two source files. -/
inductive PdErr where
  | keyError (c : String)
  | typeError (c : String)
  | attributeError (c : String)
  | unalignable
deriving DecidableEq, Repr

/-- Linear interpolation read of a sorted nonempty sample at the fractional
position q*(n-1), as pandas Series.quantile does by default. -/
def quantileAt (s : List ℚ) (q : ℚ) : ℚ :=
  let p : ℚ := q * ((s.length : ℚ) - 1)
  let f : Nat := p.floor.toNat
  let x0 := s.getD f 0
  let x1 := s.getD (f + 1) x0
  x0 + (p - (f : ℚ)) * (x1 - x0)

/-- Pandas Series.quantile with the default linear interpolation: null values
are dropped, the remaining values are sorted, and the quantile is read at the
fractional position q*(n-1); an empty series gives NaN, modelled as none. -/
def quantileLin (q : ℚ) (xs : List ℚ) : Option ℚ :=
  match xs.insertionSort (· ≤ ·) with
  | [] => none
  | y :: ys => some (quantileAt (y :: ys) q)

/-- Cells admissible in a column whose dtype kind is one of i, u, f. -/
def Val.isNumOrNull : Val → Bool
  | .num _ => true
  | .null => true
  | _ => false

/-- Numeric content of a cell, if any. -/
def Val.asNum : Val → Option ℚ
  | .num q => some q
  | _ => none

/-- One column of a frame, read off as a labelled series. -/
def colSeries (es : List (Nat × Row)) (c : String) : List (Nat × Val) :=
  es.map (fun e => (e.1, Row.getV e.2 c))

/-- Q1, Q3 and the limits [q1 - k*iqr, q3 + k*iqr] of lines 115-120. -/
def iqrBounds (k : ℚ) (vals : List ℚ) : Option (ℚ × ℚ) :=
  match quantileLin (1/4) vals, quantileLin (3/4) vals with
  | some q1, some q3 =>
    let iqr := q3 - q1
    some (q1 - k * iqr, q3 + k * iqr)
  | _, _ => none

/-- Result of (series >= lower) & (series <= upper) at one cell: a null cell
yields a missing boolean (later filled by fillna); NaN bounds, arising from an
all-null column, compare false against every number. -/
def inlierOpt (b : Option (ℚ × ℚ)) : Val → Option Bool
  | .num x =>
    match b with
    | some (lo, hi) => some (decide (lo ≤ x) && decide (x ≤ hi))
    | none => some false
  | _ => none

/-- Pandas & on two boolean series: labels are aligned (labels of the left
series first, then the labels appearing only on the right) and a position
missing on either side is filled with False. -/
def maskAnd (a b : List (Nat × Bool)) : List (Nat × Bool) :=
  let labs := a.map Prod.fst ++ (b.map Prod.fst).filter (fun l => !(a.map Prod.fst).contains l)
  labs.map (fun l => (l, ((a.lookup l).getD false) && ((b.lookup l).getD false)))

/-- Pandas boolean-series row selection df[mask]: the mask is reindexed to the
frame labels, raising when a frame label is missing from the mask; rows whose
mask value is true are kept. -/
def boolSelect (es : List (Nat × Row)) (mask : List (Nat × Bool)) :
    Except PdErr (List (Nat × Row)) :=
  if es.all (fun e => (mask.lookup e.1).isSome) then
    .ok (es.filter (fun e => (mask.lookup e.1).getD false))
  else .error .unalignable

/-- Python heap of dataframe objects; references are list positions. -/
abbrev Heap := List Table

/-- DataFrame.copy(): a fresh object with the same contents. -/
def copyTable (t : Table) : Table := ⟨t.cols, t.entries⟩

/-- Loop of remove_outliers_iqr (processing.py lines 105-138) over the
remaining columns.  The working frame lives on the heap at ref; keep_mask is
the boolean series carried across iterations.  Each iteration checks the
column exists and is numeric, computes the IQR limits on the current frame,
conjoins the per-column inlier mask onto keep_mask with index alignment, and
allocates the selected, reindexed frame as a fresh heap object. -/
def iqrLoop (k : ℚ) (na : Bool) :
    List String → Heap → Nat → List (Nat × Bool) → Except PdErr (Heap × Nat)
  | [], h, ref, _ => .ok (h, ref)
  | c :: rest, h, ref, keep_mask =>
    let t := h.getD ref Table.empty
    if t.cols.contains c then
      let series := colSeries t.entries c
      if series.all (fun p => p.2.isNumOrNull) then
        let b := iqrBounds k (series.filterMap (fun p => p.2.asNum))
        let col_mask := series.map (fun p => (p.1, (inlierOpt b p.2).getD (!na)))
        let km := maskAnd keep_mask col_mask
        match boolSelect t.entries km with
        | .ok f2 => iqrLoop k na rest (h ++ [⟨t.cols, resetIndex f2⟩]) h.length km
        | .error e => .error e
      else .error (.typeError c)
    else .error (.keyError c)

/-- Embedding of remove_outliers_iqr (processing.py lines 69-140) as a heap
transformer: the input dataframe is the object at ref, gdf.copy() on line 99
allocates the working frame, and the returned reference names the final
dataframe.  Every pandas operation the body applies returns a fresh object;
none writes in place. -/
def remove_outliers_iqr_heap (h : Heap) (ref : Nat) (columns : List String)
    (k : ℚ) (na : Bool) : Except PdErr (Heap × Nat) :=
  let t := h.getD ref Table.empty
  let h1 := h ++ [copyTable t]
  let keep_mask := t.entries.map (fun e => (e.1, true))
  iqrLoop k na columns h1 h.length keep_mask

/-- Value-level reading of remove_outliers_iqr: run the heap transformer on a
one-object heap and read the resulting dataframe back. -/
def remove_outliers_iqr (t : Table) (columns : List String) (k : ℚ) (na : Bool) :
    Except PdErr Table :=
  match remove_outliers_iqr_heap [t] 0 columns k na with
  | .ok (h, r) => .ok (h.getD r Table.empty)
  | .error e => .error e

/-- Step 1 of validate_gdf (lines 160-161): keep rows whose geometry is
non-null and valid.  Reading gdf.geometry raises when the frame carries no
geometry column, as on the output of the cascade itself. -/
def step1_geometry (t : Table) : Except PdErr Table :=
  if t.cols.contains "geometry" then
    let e1 := t.entries.filter (fun e => decide (Row.getV e.2 "geometry" ≠ Val.null))
    let e2 := e1.filter (fun e =>
      match Row.getV e.2 "geometry" with
      | Val.geom v => v
      | _ => false)
    .ok ⟨t.cols, e2⟩
  else .error (.attributeError "geometry")

/-- Step 2.1 of validate_gdf (line 170): keep only rows whose versao cell
equals the sentinel string. -/
def step2_version (t : Table) : Except PdErr Table :=
  if t.cols.contains "versao" then
    .ok ⟨t.cols, t.entries.filter (fun e =>
      decide (Row.getV e.2 "versao" = Val.str "Versão Válida"))⟩
  else .error (.keyError "versao")

/-- Replacement done by Series.replace([1, "1"], "Sim") at one cell. -/
def replOperacao (v : Val) : Val :=
  if v = Val.num 1 ∨ v = Val.str "1" then Val.str "Sim" else v

/-- The operacao column rewrite of line 177, before the null filter. -/
def opReplace (t : Table) : Table :=
  ⟨t.cols, t.entries.map (fun e =>
    (e.1, Row.setV e.2 "operacao" (replOperacao (Row.getV e.2 "operacao"))))⟩

/-- Step 2.2 of validate_gdf (lines 177-184): normalize the operacao column,
report rows with null operacao (an advisory print only), then drop them. -/
def step3_status (t : Table) : Except PdErr Table :=
  if t.cols.contains "operacao" then
    let t2 := opReplace t
    .ok ⟨t2.cols, t2.entries.filter (fun e =>
      decide (Row.getV e.2 "operacao" ≠ Val.null))⟩
  else .error (.keyError "operacao")

/-- Mandatory attribute columns of line 190. -/
def drop_na_columns : List String :=
  ["pot_mw", "alt_total", "alt_torre", "diam_rotor", "eol_versao_id", "nome_eol", "den_aeg"]

/-- Step 2.3 of validate_gdf (line 191): dropna on the subset of mandatory
columns; dropna raises KeyError when a subset column is absent. -/
def step4_required (t : Table) : Except PdErr Table :=
  match drop_na_columns.find? (fun c => !t.cols.contains c) with
  | some c => .error (.keyError c)
  | none => .ok ⟨t.cols, t.entries.filter (fun e =>
      drop_na_columns.all (fun c => decide (Row.getV e.2 c ≠ Val.null)))⟩

/-- Step 3 of validate_gdf (lines 199-200): IQR outlier removal on pot_mw
with k = 3 and the default treat_na_as_outlier = True. -/
def step5_outlier (t : Table) : Except PdErr Table :=
  remove_outliers_iqr t ["pot_mw"] 3 true

/-- The (latitude, longitude) key of a row. -/
def dupKey (r : Row) : Val × Val := (Row.getV r "latitude", Row.getV r "longitude")

/-- The first-occurrence scan behind drop_duplicates with keep = first: an
entry is kept when its key was not seen on an earlier kept entry. -/
def keepFirstBy (key : Row → Val × Val) :
    List (Nat × Row) → List (Val × Val) → List (Nat × Row)
  | [], _ => []
  | e :: rest, seen =>
    if key e.2 ∈ seen then keepFirstBy key rest seen
    else e :: keepFirstBy key rest (key e.2 :: seen)

/-- Step 4 of validate_gdf (line 204): drop rows whose (latitude, longitude)
pair duplicates an earlier row, keeping the first, then reset the index. -/
def step6_dupes (t : Table) : Except PdErr Table :=
  match ["latitude", "longitude"].find? (fun c => !t.cols.contains c) with
  | some c => .error (.keyError c)
  | none => .ok ⟨t.cols, resetIndex (keepFirstBy dupKey t.entries [])⟩

/-- Columns discarded on line 210. -/
def drop_columns : List String :=
  ["geometry", "origem", "x", "y", "datum_emp", "fuso_ag", "versao"]

/-- Step 5 of validate_gdf (lines 210-211): drop the fixed column set;
DataFrame.drop raises KeyError when any requested column is absent. -/
def step7_prune (t : Table) : Except PdErr Table :=
  match drop_columns.find? (fun c => !t.cols.contains c) with
  | some c => .error (.keyError c)
  | none =>
    .ok ⟨t.cols.filter (fun c => !drop_columns.contains c),
         t.entries.map (fun e => (e.1, e.2.filter (fun p => !drop_columns.contains p.1)))⟩

/-- The ordered step cascade of validate_gdf (lines 142-213). -/
def validateSteps : List (Table → Except PdErr Table) :=
  [step1_geometry, step2_version, step3_status, step4_required,
   step5_outlier, step6_dupes, step7_prune]

/-- Embedding of validate_gdf: the cascade applied in order, aborting on the
first failing step. -/
def validate_gdf (t : Table) : Except PdErr Table :=
  validateSteps.foldlM (fun u f => f u) t

/-- Tables produced after each successful step of a cascade; the trace stops
at the first failing step. -/
def cascadeTrace : List (Table → Except PdErr Table) → Table → List Table
  | [], _ => []
  | f :: fs, t =>
    match f t with
    | .ok u => u :: cascadeTrace fs u
    | .error _ => []

/-- Trace of validate_gdf on an input table. -/
def validateTrace (t : Table) : List Table :=
  cascadeTrace validateSteps t

/-- Decoded JSON body of an ArcGIS response: optional embedded error object,
features array and exceededTransferLimit flag; an absent key is none,
matching dict.get with a default. Features themselves are opaque tokens. -/
structure ArcBody where
  error : Option String
  features : Option (List Nat)
  exceededTransferLimit : Option Bool
deriving DecidableEq, Repr

/-- An HTTP response as the requests layer hands it back: status code plus
decoded JSON body. -/
structure HttpResponse where
  status : Nat
  body : ArcBody
deriving DecidableEq, Repr

instance : Inhabited HttpResponse := ⟨⟨200, ⟨none, none, none⟩⟩⟩

/-- The error kind fetch_page raises: a non-success transport status (the
HTTPError of raise_for_status, line 29) or an error object embedded in the
decoded payload (the RuntimeError of line 35).  The spec files both under one
RemoteError kind. -/
inductive RemoteError where
  | httpError (status : Nat)
  | arcgisError (msg : String)
deriving DecidableEq, Repr

/-- Response.raise_for_status: raises exactly on 4xx and 5xx status codes. -/
def raise_for_status (r : HttpResponse) : Except RemoteError Unit :=
  if 400 ≤ r.status ∧ r.status < 600 then .error (.httpError r.status) else .ok ()

/-- Embedding of fetch_page (extract.py lines 18-37) from the response on:
raise for a non-success status, then raise on an embedded error object,
otherwise hand the decoded payload back. -/
def fetch_page (r : HttpResponse) : Except RemoteError ArcBody :=
  match raise_for_status r with
  | .error e => .error e
  | .ok _ =>
    match r.body.error with
    | some m => .error (.arcgisError m)
    | none => .ok r.body

/-- Page size used by fetch_all_features (line 51). -/
def pageLimit : Nat := 1000

/-- Embedding of fetch_all_features (extract.py lines 40-71) over the
sequence of responses the server returns at offsets 0, limit, 2*limit, ...:
fetch a page, append its features, and continue exactly while the page both
has exceededTransferLimit set and returned at least limit features.  The
result pairs the accumulated features with the number of requests issued;
none models the response sequence running out while the loop would still
continue. -/
def fetch_all_features : List HttpResponse → Option (Except RemoteError (List Nat × Nat))
  | [] => none
  | r :: rest =>
    match fetch_page r with
    | .error e => some (.error e)
    | .ok data =>
      let page_features := data.features.getD []
      if data.exceededTransferLimit.getD false && decide (pageLimit ≤ page_features.length) then
        match fetch_all_features rest with
        | none => none
        | some (.error e) => some (.error e)
        | some (.ok (fs, n)) => some (.ok (page_features ++ fs, n + 1))
      else some (.ok (page_features, 1))

/-- Continuation heuristic as the spec words it: continue while the server
reports the exceeded-transfer-limit flag AND the page returned at least limit
records. -/
def contPage (d : ArcBody) : Bool :=
  d.exceededTransferLimit.getD false && decide (pageLimit ≤ (d.features.getD []).length)

/-- Whether pagination stops at this response: the fetch fails, or the
two-part continuation heuristic fails. -/
def stopsAt (r : HttpResponse) : Bool :=
  match fetch_page r with
  | .error _ => true
  | .ok d => !contPage d

/-- Features contributed by one successfully fetched page. -/
def pageFeats (r : HttpResponse) : List Nat :=
  match fetch_page r with
  | .ok d => d.features.getD []
  | .error _ => []

/-- Modelled from the spec: pagination issues requests for pages 1..N, where
page N is the first page that either fails or breaks the two-part heuristic,
accumulating the features of pages 1..N in receipt order; when every given
page continues, the loop keeps requesting past the sequence (none). -/
def fetchAllSpec (resps : List HttpResponse) : Option (Except RemoteError (List Nat × Nat)) :=
  match resps.findIdx? stopsAt with
  | none => none
  | some i =>
    match fetch_page (resps.getD i default) with
    | .error e => some (.error e)
    | .ok _ => some (.ok (((resps.take (i + 1)).map pageFeats).flatten, i + 1))

/-- C2: fetch_all_features requests the next page exactly when the current
page carries the exceededTransferLimit flag and returned at least limit
records: on every response sequence it behaves as the spec model that issues
requests 1..N, N being the first page failing the two-part heuristic, so a
sequence whose Nth page is short takes exactly N requests, even when that
page still sets the flag. -/
theorem fetch_all_matches_pagination_spec (resps : List HttpResponse) :
    fetch_all_features resps = fetchAllSpec resps := by
  induction resps with
  | nil => rfl
  | cons r rest ih =>
    show fetch_all_features (r :: rest) = fetchAllSpec (r :: rest)
    unfold fetch_all_features fetchAllSpec
    rw [List.findIdx?_cons]
    cases hp : fetch_page r with
    | error e =>
      have hst : stopsAt r = true := by simp [stopsAt, hp]
      simp [hst, hp]
    | ok d =>
      by_cases hc : contPage d = true
      · have hst : stopsAt r = false := by simp [stopsAt, hp, hc]
        have hcond : (d.exceededTransferLimit.getD false &&
            decide (pageLimit ≤ (d.features.getD []).length)) = true := hc
        have hpf : pageFeats r = d.features.getD [] := by simp [pageFeats, hp]
        simp only [hst, Bool.false_eq_true, if_false, hcond, if_true]
        rw [ih]
        unfold fetchAllSpec
        rw [List.findIdx?_succ]
        cases hfi : rest.findIdx? stopsAt with
        | none => rfl
        | some i =>
          cases hq : fetch_page (rest.getD i default) with
          | error e =>
            have hq2 : fetch_page ((r :: rest).getD (i + 1) default) = .error e := hq
            simp only [Option.map_some', hq, hq2]
          | ok d2 =>
            have hq2 : fetch_page ((r :: rest).getD (i + 1) default) = .ok d2 := hq
            simp only [Option.map_some', hq, hq2, List.take_succ_cons, List.map_cons,
              List.flatten_cons, hpf]
      · have hst : stopsAt r = true := by simp [stopsAt, hp, hc]
        have hcond : (d.exceededTransferLimit.getD false &&
            decide (pageLimit ≤ (d.features.getD []).length)) = false := by
          simpa [contPage] using hc
        have hpf : pageFeats r = d.features.getD [] := by simp [pageFeats, hp]
        simp [hst, hcond, hp, hpf]

/-- C3: fetch_page fails exactly when the transport status is non-success
(4xx or 5xx) or the decoded payload embeds an error object, raising the one
RemoteError kind in both cases; when it succeeds it returns the decoded
payload itself, never an emptied substitute. -/
theorem fetch_page_raises_uniformly (r : HttpResponse) :
    ((∃ e, fetch_page r = .error e) ↔
      ((400 ≤ r.status ∧ r.status < 600) ∨ r.body.error ≠ none)) ∧
    (∀ d, fetch_page r = .ok d → d = r.body ∧ d.error = none) := by
  unfold fetch_page raise_for_status
  by_cases h : 400 ≤ r.status ∧ r.status < 600
  · simp [h]
  · cases hb : r.body.error with
    | none => simp [h, hb]
    | some m => simp [h, hb]

/-- Concrete instantiation: an HTTP 200 response whose body embeds an error
object raises, an HTTP 500 response raises, and a clean HTTP 200 response
returns its payload unchanged. -/
theorem fetch_page_raises_uniformly_witness :
    (∃ e, fetch_page ⟨200, ⟨some "boom", none, none⟩⟩ = .error e) ∧
    (∃ e, fetch_page ⟨500, ⟨none, none, none⟩⟩ = .error e) ∧
    (⟨none, some [7], none⟩ : ArcBody) = (⟨none, some [7], none⟩ : ArcBody) ∧
    (⟨none, some [7], none⟩ : ArcBody).error = none :=
  ⟨(fetch_page_raises_uniformly ⟨200, ⟨some "boom", none, none⟩⟩).1.mpr
      (Or.inr (by simp)),
   (fetch_page_raises_uniformly ⟨500, ⟨none, none, none⟩⟩).1.mpr
      (Or.inl (by constructor <;> decide)),
   (fetch_page_raises_uniformly ⟨200, ⟨none, some [7], none⟩⟩).2
      ⟨none, some [7], none⟩ rfl⟩

/-- Modelled from the spec and the docstring of remove_outliers_iqr (lines
93-95): the rows are filtered column by column, each column flagging rows
against bounds computed on the rows surviving the previous columns, and only
flagged rows are removed. -/
def removeOutliersSpec (k : ℚ) (na : Bool) : List String → List Row → List Row
  | [], rows => rows
  | c :: rest, rows =>
    let b := iqrBounds k (rows.filterMap (fun r => (Row.getV r c).asNum))
    removeOutliersSpec k na rest
      (rows.filter (fun r => (inlierOpt b (Row.getV r c)).getD (!na)))

/-- Two-column table exhibiting the stale keep_mask: in column a only the
value 10 is an outlier at k = 1 (bounds [0, 8.25]); column b is constant. -/
def tableC1 : Table :=
  ⟨["a", "b"],
   [(0, [("a", Val.num 10), ("b", Val.num 1)]),
    (1, [("a", Val.num 2), ("b", Val.num 1)]),
    (2, [("a", Val.num 3), ("b", Val.num 1)]),
    (3, [("a", Val.num 4), ("b", Val.num 1)])]⟩

/-- C1: remove_outliers_iqr violates its own any-column rule.  On tableC1
with columns [a, b] and k = 1 only the row a = 10 is flagged (by column a;
column b is constant and flags nothing), yet the code also drops the row
a = 2: keep_mask keeps its pre-filter labels while the frame is reindexed, so
after the first removal the stale mask is applied to shifted positions.  The
docstring model retains the three unflagged rows. -/
theorem stale_keep_mask_drops_unflagged_row :
    (remove_outliers_iqr tableC1 ["a", "b"] 1 true).map (fun u => u.entries.map Prod.snd) =
      .ok [[("a", Val.num 3), ("b", Val.num 1)], [("a", Val.num 4), ("b", Val.num 1)]] ∧
    removeOutliersSpec 1 true ["a", "b"] (tableC1.entries.map Prod.snd) =
      [[("a", Val.num 2), ("b", Val.num 1)], [("a", Val.num 3), ("b", Val.num 1)],
       [("a", Val.num 4), ("b", Val.num 1)]] := by
  constructor
  · with_unfolding_all rfl
  · with_unfolding_all rfl

/-- Single-column table with values 1..5 and 100, the numerical example of
the spec. -/
def tableC4 : Table :=
  ⟨["v"], [(0, [("v", Val.num 1)]), (1, [("v", Val.num 2)]), (2, [("v", Val.num 3)]),
           (3, [("v", Val.num 4)]), (4, [("v", Val.num 5)]), (5, [("v", Val.num 100)])]⟩

/-- C4 counterexample: on the column [1,2,3,4,5,100] with k = 1.5 the code
computes the upper limit Q3 + 1.5*IQR = 8.5, not 6.5 as the claim states. -/
theorem iqr_upper_limit_is_85_not_65 :
    iqrBounds (3/2) [1, 2, 3, 4, 5, 100] = some (-(3/2), 17/2) ∧ ((17 : ℚ)/2 ≠ 13/2) := by
  constructor
  · with_unfolding_all rfl
  · with_unfolding_all decide

/-- C4 amended: for the column [1,2,3,4,5,100] with k = 1.5, Q1 = 2.25,
Q3 = 4.75, IQR = 2.5 and the limits are [-1.5, 8.5]; the row with value 100
is removed as an outlier and the rows with values 1..5 are retained. -/
theorem iqr_boundary_example :
    quantileLin (1/4) [1, 2, 3, 4, 5, 100] = some (9/4) ∧
    quantileLin (3/4) [1, 2, 3, 4, 5, 100] = some (19/4) ∧
    ((19 : ℚ)/4 - 9/4 = 5/2) ∧
    iqrBounds (3/2) [1, 2, 3, 4, 5, 100] = some (-(3/2), 17/2) ∧
    remove_outliers_iqr tableC4 ["v"] (3/2) true =
      .ok ⟨["v"], [(0, [("v", Val.num 1)]), (1, [("v", Val.num 2)]), (2, [("v", Val.num 3)]),
                   (3, [("v", Val.num 4)]), (4, [("v", Val.num 5)])]⟩ := by
  refine ⟨?_, ?_, ?_, ?_, ?_⟩ <;> with_unfolding_all rfl

/-- Single-column table with values [1,2,2,2,2,9]: a zero-IQR column that is
not constant. -/
def tableC5 : Table :=
  ⟨["v"], [(0, [("v", Val.num 1)]), (1, [("v", Val.num 2)]), (2, [("v", Val.num 2)]),
           (3, [("v", Val.num 2)]), (4, [("v", Val.num 2)]), (5, [("v", Val.num 9)])]⟩

/-- C5 counterexample: the column [1,2,2,2,2,9] has Q1 = Q3 = 2, hence
IQR = 0, yet it is not constant and the filter removes the rows with values
1 and 9: a zero IQR alone does not make the filter the identity on the rows. -/
theorem zero_iqr_column_still_flags_rows :
    quantileLin (1/4) [1, 2, 2, 2, 2, 9] = some 2 ∧
    quantileLin (3/4) [1, 2, 2, 2, 2, 9] = some 2 ∧
    (remove_outliers_iqr tableC5 ["v"] (3/2) true).map Table.rowCount = .ok 4 ∧
    tableC5.rowCount = 6 := by
  refine ⟨?_, ?_, ?_, ?_⟩ <;> with_unfolding_all rfl

/-- Interpolating anywhere inside a constant nonempty sorted sample gives the
constant. -/
theorem quantileAt_const (c q : ℚ) (s : List ℚ) (hq0 : 0 ≤ q) (hq1 : q ≤ 1)
    (hne : s ≠ []) (hconst : ∀ x ∈ s, x = c) : quantileAt s q = c := by
  have hn1 : (1 : ℚ) ≤ (s.length : ℚ) := by
    have : 1 ≤ s.length := Nat.one_le_iff_ne_zero.mpr (fun h => hne (List.eq_nil_of_length_eq_zero h))
    exact_mod_cast this
  have hp0 : (0 : ℚ) ≤ q * ((s.length : ℚ) - 1) :=
    mul_nonneg hq0 (by linarith)
  have hpn : q * ((s.length : ℚ) - 1) ≤ (s.length : ℚ) - 1 :=
    mul_le_of_le_one_left (by linarith) hq1
  have hfl0 : (0 : ℤ) ≤ (q * ((s.length : ℚ) - 1)).floor :=
    Rat.le_floor.mpr (by exact_mod_cast hp0)
  have hfln : (q * ((s.length : ℚ) - 1)).floor < (s.length : ℤ) := by
    by_contra hcon
    push_neg at hcon
    have : ((s.length : ℤ) : ℚ) ≤ q * ((s.length : ℚ) - 1) := Rat.le_floor.mp hcon
    push_cast at this
    linarith
  have hf : (q * ((s.length : ℚ) - 1)).floor.toNat < s.length := by
    omega
  have hx0 : s.getD (q * ((s.length : ℚ) - 1)).floor.toNat 0 = c := by
    rw [List.getD_eq_getElem s 0 hf]
    exact hconst _ (s.getElem_mem hf)
  unfold quantileAt
  simp only []
  rw [hx0]
  have hx1 : s.getD ((q * ((s.length : ℚ) - 1)).floor.toNat + 1) c = c := by
    by_cases hf1 : (q * ((s.length : ℚ) - 1)).floor.toNat + 1 < s.length
    · rw [List.getD_eq_getElem s c hf1]
      exact hconst _ (s.getElem_mem hf1)
    · exact List.getD_eq_default _ _ (by omega)
  rw [hx1]
  ring

/-- Quantiles of a constant nonempty sample are the constant. -/
theorem quantileLin_const (c q : ℚ) (xs : List ℚ) (hq0 : 0 ≤ q) (hq1 : q ≤ 1)
    (hne : xs ≠ []) (hconst : ∀ x ∈ xs, x = c) : quantileLin q xs = some c := by
  have hmem : ∀ x ∈ xs.insertionSort (· ≤ ·), x = c := fun x hx =>
    hconst x ((List.mem_insertionSort _).1 hx)
  have hlen : (xs.insertionSort (· ≤ ·)).length = xs.length :=
    List.length_insertionSort _ _
  unfold quantileLin
  cases hS : xs.insertionSort (· ≤ ·) with
  | nil =>
    exact absurd (List.eq_nil_of_length_eq_zero (by rw [← hlen, hS]; rfl)) hne
  | cons y ys =>
    rw [hS] at hmem
    exact congrArg some (quantileAt_const c q (y :: ys) hq0 hq1 (by simp) hmem)

/-- IQR limits of a constant nonempty sample collapse to the constant for
every factor k. -/
theorem iqrBounds_const (k c : ℚ) (xs : List ℚ) (hne : xs ≠ [])
    (hconst : ∀ x ∈ xs, x = c) : iqrBounds k xs = some (c, c) := by
  unfold iqrBounds
  rw [quantileLin_const c (1/4) xs (by norm_num) (by norm_num) hne hconst,
      quantileLin_const c (3/4) xs (by norm_num) (by norm_num) hne hconst]
  simp

/-- A column whose cells all hold the number c reads back as the constant
sample c. -/
theorem filterMap_asNum_const (c : ℚ) (l : List (Nat × Val))
    (h : ∀ p ∈ l, p.2 = Val.num c) :
    l.filterMap (fun p => p.2.asNum) = l.map (fun _ => c) := by
  induction l with
  | nil => rfl
  | cons p l ih =>
    have hp : p.2 = Val.num c := h p (List.mem_cons_self p l)
    simp only [List.filterMap_cons, List.map_cons, hp, Val.asNum]
    exact congrArg (c :: ·) (ih (fun q hq => h q (List.mem_cons_of_mem p hq)))

/-- Looking a frame label up in the all-true mask over the same frame. -/
theorem lookup_map_fst_true (l : List (Nat × Row)) (x : Nat)
    (hx : x ∈ l.map Prod.fst) :
    (l.map (fun e => (e.1, true))).lookup x = some true := by
  induction l with
  | nil => simp at hx
  | cons e l ih =>
    obtain ⟨a, r⟩ := e
    simp only [List.map_cons, List.lookup]
    by_cases hxe : x = a
    · simp [hxe]
    · have hbeq : (x == a) = false := by simpa using hxe
      rw [hbeq]
      apply ih
      simp only [List.map_cons, List.mem_cons] at hx
      exact hx.resolve_left hxe

/-- Conjoining the all-true mask of a frame with itself gives it back. -/
theorem maskAnd_true_true (es : List (Nat × Row)) :
    maskAnd (es.map (fun e => (e.1, true))) (es.map (fun e => (e.1, true))) =
      es.map (fun e => (e.1, true)) := by
  unfold maskAnd
  simp only []
  have hfst : (es.map (fun e => (e.1, true))).map Prod.fst = es.map Prod.fst := by
    rw [List.map_map]; rfl
  rw [hfst]
  have hfilter : (es.map Prod.fst).filter
      (fun l => !(es.map Prod.fst).contains l) = [] := by
    apply List.filter_eq_nil_iff.mpr
    intro a ha
    simp [List.elem_eq_mem, ha]
  rw [hfilter, List.append_nil, List.map_map]
  apply List.map_congr_left
  intro e he
  have := lookup_map_fst_true es e.1 (List.mem_map_of_mem Prod.fst he)
  simp [Function.comp, this]

/-- Selecting with the all-true mask of the frame keeps every row. -/
theorem boolSelect_all_true (es : List (Nat × Row)) :
    boolSelect es (es.map (fun e => (e.1, true))) = .ok es := by
  unfold boolSelect
  have hl : ∀ e ∈ es, ((es.map (fun e2 => (e2.1, true))).lookup e.1) = some true :=
    fun e he => lookup_map_fst_true es e.1 (List.mem_map_of_mem Prod.fst he)
  have hall : es.all (fun e => ((es.map (fun e2 => (e2.1, true))).lookup e.1).isSome) = true := by
    rw [List.all_eq_true]
    intro e he
    rw [hl e he]
    rfl
  rw [if_pos hall]
  congr 1
  apply List.filter_eq_self.mpr
  intro e he
  rw [hl e he]
  rfl

/-- C5 amended: a constant numeric column flags no row: when every cell of
the designated column holds one and the same number, remove_outliers_iqr
keeps every row (performing only its unconditional index reset), whatever
the factor k and the NA policy. -/
theorem constant_column_flags_no_row (t : Table) (col : String) (c k : ℚ) (na : Bool)
    (hcol : t.cols.contains col = true)
    (hconst : ∀ e ∈ t.entries, Row.getV e.2 col = Val.num c) :
    remove_outliers_iqr t [col] k na = .ok ⟨t.cols, resetIndex t.entries⟩ := by
  have hser : ∀ p ∈ colSeries t.entries col, p.2 = Val.num c := by
    intro p hp
    unfold colSeries at hp
    obtain ⟨e, he, rfl⟩ := List.mem_map.1 hp
    exact hconst e he
  have hall : (colSeries t.entries col).all (fun p => p.2.isNumOrNull) = true := by
    rw [List.all_eq_true]
    intro p hp
    rw [hser p hp]
    rfl
  have hpoint : ∀ p ∈ colSeries t.entries col,
      (inlierOpt (iqrBounds k ((colSeries t.entries col).filterMap
        (fun p2 => p2.2.asNum))) p.2).getD (!na) = true := by
    intro p hp
    have hvals : (colSeries t.entries col).filterMap (fun p2 => p2.2.asNum) =
        (colSeries t.entries col).map (fun _ => c) :=
      filterMap_asNum_const c _ hser
    have hnil : (colSeries t.entries col).map (fun _ => c) ≠ [] := by
      have := List.ne_nil_of_mem hp
      simpa using this
    have hb : iqrBounds k ((colSeries t.entries col).filterMap
        (fun p2 => p2.2.asNum)) = some (c, c) := by
      rw [hvals]
      apply iqrBounds_const k c _ hnil
      intro x hx
      obtain ⟨_, _, rfl⟩ := List.mem_map.1 hx
      rfl
    rw [hb, hser p hp]
    simp [inlierOpt]
  have hmask : (colSeries t.entries col).map
      (fun p => (p.1, (inlierOpt (iqrBounds k ((colSeries t.entries col).filterMap
        (fun p2 => p2.2.asNum))) p.2).getD (!na))) =
      t.entries.map (fun e => (e.1, true)) := by
    rw [List.map_congr_left (fun p hp => by rw [hpoint p hp])]
    unfold colSeries
    rw [List.map_map]
    rfl
  have hloop : ∀ (h : Heap) (ref : Nat), h.getD ref Table.empty = copyTable t →
      iqrLoop k na [col] h ref (t.entries.map (fun e => (e.1, true))) =
        .ok (h ++ [⟨t.cols, resetIndex t.entries⟩], h.length) := by
    intro h ref hget
    unfold iqrLoop
    rw [hget]
    simp only [copyTable]
    rw [if_pos hcol, if_pos hall, hmask, maskAnd_true_true, boolSelect_all_true]
    unfold iqrLoop
    rfl
  unfold remove_outliers_iqr remove_outliers_iqr_heap
  simp only []
  show (match iqrLoop k na [col] [t, copyTable t] 1 (t.entries.map (fun e => (e.1, true))) with
    | Except.ok (h, r) => Except.ok (h.getD r Table.empty)
    | Except.error e => Except.error e) = Except.ok ⟨t.cols, resetIndex t.entries⟩
  rw [hloop [t, copyTable t] 1 rfl]
  rfl

/-- Concrete instantiation of the constant-column theorem: a three-row table
whose column v is constantly 7 passes through unchanged with k = 1.5. -/
theorem constant_column_flags_no_row_witness :
    remove_outliers_iqr
        ⟨["v"], [(0, [("v", Val.num 7)]), (1, [("v", Val.num 7)]), (2, [("v", Val.num 7)])]⟩
        ["v"] (3/2) true =
      .ok ⟨["v"], resetIndex [(0, [("v", Val.num 7)]), (1, [("v", Val.num 7)]),
                              (2, [("v", Val.num 7)])]⟩ :=
  constant_column_flags_no_row
    ⟨["v"], [(0, [("v", Val.num 7)]), (1, [("v", Val.num 7)]), (2, [("v", Val.num 7)])]⟩
    "v" 7 (3/2) true (by rfl) (by intro e he; fin_cases he <;> rfl)

/-- The outlier loop only ever appends to the heap, and hands back either its
incoming reference or a reference into the appended part. -/
theorem iqrLoop_extends (k : ℚ) (na : Bool) :
    ∀ (cols : List String) (h : Heap) (ref : Nat) (km : List (Nat × Bool))
      (h2 : Heap) (r2 : Nat),
      iqrLoop k na cols h ref km = .ok (h2, r2) →
      (∃ ext, h2 = h ++ ext) ∧ (r2 = ref ∨ h.length ≤ r2) := by
  intro cols
  induction cols with
  | nil =>
    intro h ref km h2 r2 heq
    unfold iqrLoop at heq
    injection heq with heq
    injection heq with h1 h2
    subst h1; subst h2
    exact ⟨⟨[], (List.append_nil h).symm⟩, Or.inl rfl⟩
  | cons c rest ih =>
    intro h ref km h2 r2 heq
    unfold iqrLoop at heq
    simp only [] at heq
    split at heq
    · split at heq
      · split at heq
        · obtain ⟨⟨ext, hext⟩, hr⟩ := ih _ _ _ _ _ heq
          constructor
          · exact ⟨_, by rw [hext, List.append_assoc]⟩
          · right
            rcases hr with hr | hr
            · omega
            · rw [List.length_append] at hr
              omega
        · exact absurd heq (by simp)
      · exact absurd heq (by simp)
    · exact absurd heq (by simp)

/-- C9: remove_outliers_iqr never mutates its input dataframe: it copies the
frame on entry and every pandas operation it applies allocates fresh objects,
so each object alive before the call, in particular the input at ref, is
unchanged on the heap afterwards, and the returned reference names a newly
allocated dataframe. -/
theorem remove_outliers_iqr_no_mutation (h : Heap) (ref : Nat) (columns : List String)
    (k : ℚ) (na : Bool) (h2 : Heap) (r2 : Nat)
    (hok : remove_outliers_iqr_heap h ref columns k na = .ok (h2, r2)) :
    (∀ j, j < h.length → h2.getD j Table.empty = h.getD j Table.empty) ∧ h.length ≤ r2 := by
  unfold remove_outliers_iqr_heap at hok
  simp only [] at hok
  obtain ⟨⟨ext, hext⟩, hr⟩ := iqrLoop_extends k na columns _ _ _ _ _ hok
  constructor
  · intro j hj
    rw [hext, List.append_assoc]
    exact List.getD_append _ _ _ _ hj
  · rcases hr with hr | hr
    · omega
    · rw [List.length_append] at hr
      omega

/-- One-row table used to instantiate the no-mutation theorem. -/
def tableC9 : Table := ⟨["v"], [(0, [("v", Val.num 1)])]⟩

/-- Concrete instantiation of the no-mutation theorem on a one-object heap:
after the call the original slot still holds the input table. -/
theorem remove_outliers_iqr_no_mutation_witness :
    (∀ j, j < ([tableC9] : Heap).length →
      ([tableC9, tableC9, tableC9] : Heap).getD j Table.empty =
        ([tableC9] : Heap).getD j Table.empty) ∧
    ([tableC9] : Heap).length ≤ 2 :=
  remove_outliers_iqr_no_mutation [tableC9] 0 ["v"] (3/2) true
    [tableC9, tableC9, tableC9] 2 (by with_unfolding_all rfl)

/-- A cascade step is row-count monotone when its successful output never has
more rows than its input. -/
def StepMono (f : Table → Except PdErr Table) : Prop :=
  ∀ t u, f t = .ok u → u.rowCount ≤ t.rowCount

/-- Row count of a reindexed frame. -/
theorem resetIndex_length (es : List (Nat × Row)) : (resetIndex es).length = es.length := by
  unfold resetIndex
  rw [List.enum_length, List.length_map]

/-- Reading the slot just past a heap prefix gives the appended object. -/
theorem getD_append_self (l : List Table) (a : Table) :
    (l ++ [a]).getD l.length Table.empty = a := by
  rw [List.getD_append_right l [a] Table.empty l.length (Nat.le_refl _)]
  simp

/-- The outlier loop never grows the working frame. -/
theorem iqrLoop_rowCount (k : ℚ) (na : Bool) :
    ∀ (cols : List String) (h : Heap) (ref : Nat) (km : List (Nat × Bool))
      (h2 : Heap) (r2 : Nat),
      iqrLoop k na cols h ref km = .ok (h2, r2) →
      (h2.getD r2 Table.empty).rowCount ≤ (h.getD ref Table.empty).rowCount := by
  intro cols
  induction cols with
  | nil =>
    intro h ref km h2 r2 heq
    unfold iqrLoop at heq
    injection heq with heq
    injection heq with h1 h2
    subst h1; subst h2
    exact Nat.le_refl _
  | cons c rest ih =>
    intro h ref km h2 r2 heq
    unfold iqrLoop at heq
    simp only [] at heq
    split at heq
    · split at heq
      · split at heq
        · rename_i f2 hsel
          have hle := ih _ _ _ _ _ heq
          rw [getD_append_self] at hle
          refine hle.trans ?_
          unfold boolSelect at hsel
          split at hsel
          · injection hsel with hsel
            subst hsel
            show (resetIndex _).length ≤ _
            rw [resetIndex_length]
            exact List.length_filter_le _ _
          · exact absurd hsel (by simp)
        · exact absurd heq (by simp)
      · exact absurd heq (by simp)
    · exact absurd heq (by simp)

/-- Step 1 never grows the table. -/
theorem step1_mono : StepMono step1_geometry := by
  intro t u hok
  unfold step1_geometry at hok
  split at hok
  · injection hok with hok
    subst hok
    exact (List.length_filter_le _ _).trans (List.length_filter_le _ _)
  · exact absurd hok (by simp)

/-- Step 2 never grows the table. -/
theorem step2_mono : StepMono step2_version := by
  intro t u hok
  unfold step2_version at hok
  split at hok
  · injection hok with hok
    subst hok
    exact List.length_filter_le _ _
  · exact absurd hok (by simp)

/-- Step 3 never grows the table. -/
theorem step3_mono : StepMono step3_status := by
  intro t u hok
  unfold step3_status at hok
  split at hok
  · injection hok with hok
    subst hok
    show ((opReplace t).entries.filter _).length ≤ _
    refine (List.length_filter_le _ _).trans ?_
    unfold opReplace
    rw [List.length_map]
    exact Nat.le_refl _
  · exact absurd hok (by simp)

/-- Step 4 never grows the table. -/
theorem step4_mono : StepMono step4_required := by
  intro t u hok
  unfold step4_required at hok
  split at hok
  · exact absurd hok (by simp)
  · injection hok with hok
    subst hok
    exact List.length_filter_le _ _

/-- Step 5 never grows the table. -/
theorem step5_mono : StepMono step5_outlier := by
  intro t u hok
  unfold step5_outlier remove_outliers_iqr at hok
  split at hok
  · rename_i hp r2 heq
    injection hok with hok
    subst hok
    have := iqrLoop_rowCount 3 true ["pot_mw"] _ _ _ _ _ heq
    exact this
  · exact absurd hok (by simp)

/-- The first-occurrence scan never grows the frame. -/
theorem keepFirstBy_length_le (key : Row → Val × Val) :
    ∀ (es : List (Nat × Row)) (seen : List (Val × Val)),
      (keepFirstBy key es seen).length ≤ es.length := by
  intro es
  induction es with
  | nil => intro seen; exact Nat.le_refl _
  | cons e es ih =>
    intro seen
    unfold keepFirstBy
    split
    · exact (ih seen).trans (Nat.le_succ _)
    · simpa using ih (key e.2 :: seen)

/-- Step 6 never grows the table. -/
theorem step6_mono : StepMono step6_dupes := by
  intro t u hok
  unfold step6_dupes at hok
  split at hok
  · exact absurd hok (by simp)
  · injection hok with hok
    subst hok
    show (resetIndex _).length ≤ _
    rw [resetIndex_length]
    exact keepFirstBy_length_le dupKey t.entries []

/-- Step 7 never grows the table. -/
theorem step7_mono : StepMono step7_prune := by
  intro t u hok
  unfold step7_prune at hok
  split at hok
  · exact absurd hok (by simp)
  · injection hok with hok
    subst hok
    show (t.entries.map _).length ≤ _
    rw [List.length_map]
    exact Nat.le_refl _

/-- A cascade of row-count monotone steps yields a non-increasing trace. -/
theorem cascade_chain (fs : List (Table → Except PdErr Table))
    (hmono : ∀ f ∈ fs, StepMono f) (t : Table) :
    List.Chain' (fun a b => b.rowCount ≤ a.rowCount) (t :: cascadeTrace fs t) := by
  induction fs generalizing t with
  | nil => simp [cascadeTrace]
  | cons f fs ih =>
    unfold cascadeTrace
    cases hf : f t with
    | error e => simp
    | ok u =>
      exact List.chain'_cons.mpr
        ⟨hmono f (List.mem_cons_self f fs) t u hf,
         ih (fun g hg => hmono g (List.mem_cons_of_mem f hg)) u⟩

/-- C8: across the validation cascade the row count never increases: for
every input table, the input followed by the tables after each successful
step of validate_gdf is non-increasing in row count (the trace ends at the
first failing step, which aborts the whole run). -/
theorem validate_gdf_rowcount_antitone (t : Table) :
    List.Chain' (fun a b => b.rowCount ≤ a.rowCount) (t :: validateTrace t) := by
  apply cascade_chain
  intro f hf
  unfold validateSteps at hf
  simp only [List.mem_cons, List.not_mem_nil, or_false] at hf
  rcases hf with rfl | rfl | rfl | rfl | rfl | rfl | rfl
  · exact step1_mono
  · exact step2_mono
  · exact step3_mono
  · exact step4_mono
  · exact step5_mono
  · exact step6_mono
  · exact step7_mono

/-- Looking up the written column of a row after a rowwise column write. -/
theorem lookup_map_set (c : String) (v : Val) :
    ∀ r : Row, ((r.map (fun p => if p.1 = c then (p.1, v) else p)).lookup c) =
      (r.lookup c).map (fun _ => v) := by
  intro r
  induction r with
  | nil => rfl
  | cons p r ih =>
    obtain ⟨a, w⟩ := p
    by_cases hac : a = c
    · subst hac
      rw [List.map_cons]
      have hhead : (if (a, w).1 = a then ((a, w).1, v) else (a, w)) = (a, v) := by simp
      rw [hhead]
      simp [List.lookup]
    · rw [List.map_cons]
      have hhead : (if (a, w).1 = c then ((a, w).1, v) else (a, w)) = (a, w) := by simp [hac]
      rw [hhead]
      have hbeq : (c == a) = false := by
        simp only [beq_eq_false_iff_ne, ne_eq]
        exact fun h => hac h.symm
      simp only [List.lookup, hbeq]
      exact ih

/-- A row absent a column gains it at the end, where lookup then finds it. -/
theorem lookup_append_single (c : String) (v : Val) :
    ∀ r : Row, r.lookup c = none → ((r ++ [(c, v)]).lookup c) = some v := by
  intro r
  induction r with
  | nil => simp [List.lookup]
  | cons p r ih =>
    obtain ⟨a, w⟩ := p
    intro hnone
    simp only [List.lookup] at hnone ⊢
    cases hca : (c == a) with
    | true => rw [hca] at hnone; exact absurd hnone (by simp)
    | false =>
      rw [hca] at hnone
      simp only [List.cons_append]
      exact ih hnone

/-- Reading back the cell just written by setV. -/
theorem getV_setV (r : Row) (c : String) (v : Val) :
    Row.getV (Row.setV r c v) c = v := by
  unfold Row.setV Row.getV
  by_cases h : (r.lookup c).isSome
  · rw [if_pos h, lookup_map_set]
    obtain ⟨w, hw⟩ := Option.isSome_iff_exists.1 h
    rw [hw]
    rfl
  · rw [if_neg h]
    rw [lookup_append_single c v r (Option.not_isSome_iff_eq_none.1 h)]
    rfl

/-- C6: in the operational-status step, every operacao cell equal to the
numeral one, numeric 1 or textual "1", is rewritten to the canonical "Sim"
string before the null filter; the step then always succeeds when the column
exists (null rows are only reported), dropping exactly the rows whose
operacao is null after normalization. -/
theorem status_step_normalizes_then_drops_nulls (t : Table)
    (hc : t.cols.contains "operacao" = true) :
    (∀ i, i < t.entries.length →
      (Row.getV (t.entries.getD i (0, [])).2 "operacao" = Val.num 1 ∨
       Row.getV (t.entries.getD i (0, [])).2 "operacao" = Val.str "1") →
      Row.getV ((opReplace t).entries.getD i (0, [])).2 "operacao" = Val.str "Sim") ∧
    (∃ u, step3_status t = .ok u ∧
      u.entries = (opReplace t).entries.filter
        (fun e => decide (Row.getV e.2 "operacao" ≠ Val.null)) ∧
      ∀ e ∈ u.entries, Row.getV e.2 "operacao" ≠ Val.null) := by
  constructor
  · intro i hi hone
    unfold opReplace
    rw [List.getD_eq_getElem _ _ (by simpa using hi), List.getElem_map]
    show Row.getV (Row.setV _ "operacao" _) "operacao" = _
    rw [getV_setV]
    rw [List.getD_eq_getElem _ _ hi] at hone
    unfold replOperacao
    rw [if_pos hone]
  · refine ⟨⟨(opReplace t).cols, (opReplace t).entries.filter
        (fun e => decide (Row.getV e.2 "operacao" ≠ Val.null))⟩, ?_, rfl, ?_⟩
    · unfold step3_status
      rw [if_pos hc]
    · intro e he
      simpa using (List.mem_filter.1 he).2

/-- Rows are dropped wholesale once their key is recorded as seen. -/
theorem keepFirstBy_filter_seen (key : Row → Val × Val) (kk : Val × Val) :
    ∀ (es : List (Nat × Row)) (seen : List (Val × Val)), kk ∈ seen →
      (keepFirstBy key es seen).filter (fun e => decide (key e.2 = kk)) = [] := by
  intro es
  induction es with
  | nil => intro seen hk; rfl
  | cons e es ih =>
    intro seen hk
    unfold keepFirstBy
    split
    · exact ih seen hk
    · rename_i hnot
      rw [List.filter_cons]
      have hd : (decide (key e.2 = kk)) = false := by
        simp only [decide_eq_false_iff_not]
        intro hek
        exact hnot (hek ▸ hk)
      rw [hd]
      simpa using ih _ (List.mem_cons_of_mem _ hk)

/-- For a fresh key, the kept rows with that key are exactly the first
incoming row with that key. -/
theorem keepFirstBy_filter_take (key : Row → Val × Val) (kk : Val × Val) :
    ∀ (es : List (Nat × Row)) (seen : List (Val × Val)), kk ∉ seen →
      (keepFirstBy key es seen).filter (fun e => decide (key e.2 = kk)) =
        (es.filter (fun e => decide (key e.2 = kk))).take 1 := by
  intro es
  induction es with
  | nil => intro seen hk; rfl
  | cons e es ih =>
    intro seen hk
    unfold keepFirstBy
    by_cases hseen : key e.2 ∈ seen
    · rw [if_pos hseen, List.filter_cons]
      have hd : (decide (key e.2 = kk)) = false := by
        simp only [decide_eq_false_iff_not]
        intro h
        exact hk (h ▸ hseen)
      rw [hd]
      simpa using ih seen hk
    · rw [if_neg hseen, List.filter_cons, List.filter_cons]
      by_cases hek : key e.2 = kk
      · have hd : (decide (key e.2 = kk)) = true := by simp [hek]
        rw [hd]
        simp only [if_true]
        rw [keepFirstBy_filter_seen key kk es _ (by rw [← hek]; exact List.mem_cons_self _ _),
          List.take_succ_cons, List.take_zero]
      · have hd : (decide (key e.2 = kk)) = false := by simp [hek]
        rw [hd]
        simp only [Bool.false_eq_true, if_false]
        refine ih _ ?_
        intro hin
        rcases List.mem_cons.1 hin with h | h
        · exact hek h.symm
        · exact hk h

/-- The first-occurrence scan returns a sublist of its input. -/
theorem keepFirstBy_sublist (key : Row → Val × Val) :
    ∀ (es : List (Nat × Row)) (seen : List (Val × Val)),
      (keepFirstBy key es seen).Sublist es := by
  intro es
  induction es with
  | nil => intro seen; exact List.Sublist.refl _
  | cons e es ih =>
    intro seen
    unfold keepFirstBy
    split
    · exact (ih _).trans (List.sublist_cons_self e es)
    · exact List.Sublist.cons₂ e (ih _)

/-- Reindexing does not change the row payloads. -/
theorem resetIndex_map_snd (es : List (Nat × Row)) :
    (resetIndex es).map Prod.snd = es.map Prod.snd := by
  unfold resetIndex
  rw [List.enum_map_snd]

/-- Reindexing assigns the dense 0-based labels. -/
theorem resetIndex_map_fst (es : List (Nat × Row)) :
    (resetIndex es).map Prod.fst = List.range es.length := by
  unfold resetIndex
  rw [List.enum_map_fst, List.length_map]

/-- C7: the duplicate-coordinate step keeps, for every (latitude, longitude)
pair, exactly the first-occurring row and drops the later ones, preserves the
relative order of the kept rows, and resets the index to a dense 0-based
range. -/
theorem dupes_step_keeps_first_occurrence (t u : Table)
    (hok : step6_dupes t = .ok u) :
    ((u.entries.map Prod.snd).Sublist (t.entries.map Prod.snd)) ∧
    (∀ kk : Val × Val, (u.entries.map Prod.snd).filter (fun r => decide (dupKey r = kk)) =
      ((t.entries.map Prod.snd).filter (fun r => decide (dupKey r = kk))).take 1) ∧
    u.entries.map Prod.fst = List.range u.entries.length := by
  unfold step6_dupes at hok
  split at hok
  · exact absurd hok (by simp)
  · injection hok with hok
    subst hok
    refine ⟨?_, ?_, ?_⟩
    · show ((resetIndex _).map Prod.snd).Sublist _
      rw [resetIndex_map_snd]
      exact (keepFirstBy_sublist dupKey t.entries []).map Prod.snd
    · intro kk
      show ((resetIndex _).map Prod.snd).filter _ = _
      rw [resetIndex_map_snd]
      rw [List.filter_map, List.filter_map]
      have hcomp : ((fun r => decide (dupKey r = kk)) ∘ Prod.snd) =
          (fun e : Nat × Row => decide (dupKey e.2 = kk)) := rfl
      rw [hcomp]
      rw [keepFirstBy_filter_take dupKey kk t.entries [] (List.not_mem_nil kk),
        List.map_take]
    · show (resetIndex _).map Prod.fst = _
      rw [resetIndex_map_fst]
      show _ = List.range (resetIndex _).length
      rw [resetIndex_length]

/-- Binding a successful Except value applies the continuation. -/
theorem except_bind_ok (a : Table) (f : Table → Except PdErr Table) :
    (Except.ok a >>= f : Except PdErr Table) = f a := rfl

/-- Binding a failed Except value propagates the failure. -/
theorem except_bind_error (e : PdErr) (f : Table → Except PdErr Table) :
    (Except.error e >>= f : Except PdErr Table) = Except.error e := rfl

/-- C10: the final column-pruning step raises a key error whenever any of
its fixed drop columns is absent from the table; consequently validate_gdf
applied to its own output raises rather than no-oping, since that output has
the pruned columns, geometry among them, removed, which makes the second run
fail at its first step. -/
theorem prune_missing_column_raises :
    (∀ t : Table, (∃ c ∈ drop_columns, t.cols.contains c = false) →
      ∃ er, step7_prune t = .error er) ∧
    (∀ t u : Table, validate_gdf t = .ok u → ∃ er, validate_gdf u = .error er) := by
  constructor
  · rintro t ⟨c, hc, hnc⟩
    unfold step7_prune
    cases hf : drop_columns.find? (fun c2 => !t.cols.contains c2) with
    | some c2 => exact ⟨.keyError c2, rfl⟩
    | none =>
      exfalso
      have hmem := List.find?_eq_none.1 hf c hc
      rw [hnc] at hmem
      exact hmem rfl
  · intro t u hok
    unfold validate_gdf validateSteps at hok
    simp only [List.foldlM_cons, List.foldlM_nil] at hok
    cases h1 : step1_geometry t with
    | error e => rw [h1, except_bind_error] at hok; exact absurd hok (by simp)
    | ok t1 =>
    rw [h1, except_bind_ok] at hok
    cases h2 : step2_version t1 with
    | error e => rw [h2, except_bind_error] at hok; exact absurd hok (by simp)
    | ok t2 =>
    rw [h2, except_bind_ok] at hok
    cases h3 : step3_status t2 with
    | error e => rw [h3, except_bind_error] at hok; exact absurd hok (by simp)
    | ok t3 =>
    rw [h3, except_bind_ok] at hok
    cases h4 : step4_required t3 with
    | error e => rw [h4, except_bind_error] at hok; exact absurd hok (by simp)
    | ok t4 =>
    rw [h4, except_bind_ok] at hok
    cases h5 : step5_outlier t4 with
    | error e => rw [h5, except_bind_error] at hok; exact absurd hok (by simp)
    | ok t5 =>
    rw [h5, except_bind_ok] at hok
    cases h6 : step6_dupes t5 with
    | error e => rw [h6, except_bind_error] at hok; exact absurd hok (by simp)
    | ok t6 =>
    rw [h6, except_bind_ok] at hok
    cases h7 : step7_prune t6 with
    | error e => rw [h7, except_bind_error] at hok; exact absurd hok (by simp)
    | ok t7 =>
    rw [h7, except_bind_ok] at hok
    have hu : t7 = u := Except.ok.inj hok
    subst hu
    unfold step7_prune at h7
    split at h7
    · exact absurd h7 (by simp)
    · injection h7 with h7
      subst h7
      have hgeom : (t6.cols.filter (fun c2 => !drop_columns.contains c2)).contains
          "geometry" = false := by
        apply Bool.eq_false_iff.mpr
        intro hcontains
        have hmem : "geometry" ∈ t6.cols.filter (fun c2 => !drop_columns.contains c2) := by
          simpa [List.elem_iff] using hcontains
        have hflag := (List.mem_filter.1 hmem).2
        have hcont : drop_columns.contains "geometry" = true := by
          with_unfolding_all decide
        rw [hcont] at hflag
        exact absurd hflag (by decide)
      refine ⟨.attributeError "geometry", ?_⟩
      unfold validate_gdf validateSteps
      simp only [List.foldlM_cons, List.foldlM_nil, bind, Except.bind]
      unfold step1_geometry
      rw [hgeom]
      rfl

/-- Four-row status table: numeric 1, textual "1", null and an already
canonical cell. -/
def tableC6 : Table :=
  ⟨["operacao"],
   [(0, [("operacao", Val.num 1)]), (1, [("operacao", Val.str "1")]),
    (2, [("operacao", Val.null)]), (3, [("operacao", Val.str "Sim")])]⟩

/-- Concrete instantiation of the status-step theorem on tableC6. -/
theorem status_step_normalizes_then_drops_nulls_witness :
    (∀ i, i < tableC6.entries.length →
      (Row.getV (tableC6.entries.getD i (0, [])).2 "operacao" = Val.num 1 ∨
       Row.getV (tableC6.entries.getD i (0, [])).2 "operacao" = Val.str "1") →
      Row.getV ((opReplace tableC6).entries.getD i (0, [])).2 "operacao" = Val.str "Sim") ∧
    (∃ u, step3_status tableC6 = .ok u ∧
      u.entries = (opReplace tableC6).entries.filter
        (fun e => decide (Row.getV e.2 "operacao" ≠ Val.null)) ∧
      ∀ e ∈ u.entries, Row.getV e.2 "operacao" ≠ Val.null) :=
  status_step_normalizes_then_drops_nulls tableC6 (by with_unfolding_all rfl)

/-- Three-row coordinate table: two rows share (1, 2), one row is distinct. -/
def tableC7 : Table :=
  ⟨["latitude", "longitude", "name"],
   [(0, [("latitude", Val.num 1), ("longitude", Val.num 2), ("name", Val.str "A")]),
    (1, [("latitude", Val.num 1), ("longitude", Val.num 2), ("name", Val.str "B")]),
    (2, [("latitude", Val.num 3), ("longitude", Val.num 4), ("name", Val.str "C")])]⟩

/-- The deduplicated form of tableC7: the first duplicate and the distinct
row, in original order, densely reindexed. -/
def tableC7dd : Table :=
  ⟨["latitude", "longitude", "name"],
   [(0, [("latitude", Val.num 1), ("longitude", Val.num 2), ("name", Val.str "A")]),
    (1, [("latitude", Val.num 3), ("longitude", Val.num 4), ("name", Val.str "C")])]⟩

/-- Concrete instantiation of the duplicate-step theorem: of the three rows
of tableC7 exactly two remain, in original order, with a dense index. -/
theorem dupes_step_keeps_first_occurrence_witness :
    ((tableC7dd.entries.map Prod.snd).Sublist (tableC7.entries.map Prod.snd)) ∧
    (∀ kk : Val × Val, (tableC7dd.entries.map Prod.snd).filter (fun r => decide (dupKey r = kk)) =
      ((tableC7.entries.map Prod.snd).filter (fun r => decide (dupKey r = kk))).take 1) ∧
    tableC7dd.entries.map Prod.fst = List.range tableC7dd.entries.length :=
  dupes_step_keeps_first_occurrence tableC7 tableC7dd (by with_unfolding_all rfl)

/-- A one-row table carrying every column validate_gdf touches, valid on all
of them, so that the whole cascade succeeds. -/
def tableC10 : Table :=
  ⟨["geometry", "versao", "operacao", "pot_mw", "alt_total", "alt_torre", "diam_rotor",
    "eol_versao_id", "nome_eol", "den_aeg", "latitude", "longitude", "origem", "x", "y",
    "datum_emp", "fuso_ag"],
   [(0, [("geometry", Val.geom true), ("versao", Val.str "Versão Válida"),
         ("operacao", Val.str "Sim"), ("pot_mw", Val.num 1), ("alt_total", Val.num 1),
         ("alt_torre", Val.num 1), ("diam_rotor", Val.num 1), ("eol_versao_id", Val.num 1),
         ("nome_eol", Val.str "n"), ("den_aeg", Val.str "d"), ("latitude", Val.num 0),
         ("longitude", Val.num 0), ("origem", Val.str "o"), ("x", Val.num 0),
         ("y", Val.num 0), ("datum_emp", Val.str "datum"), ("fuso_ag", Val.num 22)])]⟩

/-- The cascade output for tableC10: the row survives every filter and the
drop set of columns is pruned. -/
def tableC10v : Table :=
  ⟨["operacao", "pot_mw", "alt_total", "alt_torre", "diam_rotor", "eol_versao_id",
    "nome_eol", "den_aeg", "latitude", "longitude"],
   [(0, [("operacao", Val.str "Sim"), ("pot_mw", Val.num 1), ("alt_total", Val.num 1),
         ("alt_torre", Val.num 1), ("diam_rotor", Val.num 1), ("eol_versao_id", Val.num 1),
         ("nome_eol", Val.str "n"), ("den_aeg", Val.str "d"), ("latitude", Val.num 0),
         ("longitude", Val.num 0)])]⟩

/-- Concrete instantiation of the pruning theorem: the pruning step raises on
the empty table, and validate_gdf raises on its own output for tableC10. -/
theorem prune_missing_column_raises_witness :
    (∃ er, step7_prune Table.empty = .error er) ∧
    (∃ er, validate_gdf tableC10v = .error er) :=
  ⟨prune_missing_column_raises.1 Table.empty
      ⟨"geometry", by with_unfolding_all decide, by with_unfolding_all rfl⟩,
   prune_missing_column_raises.2 tableC10 tableC10v (by with_unfolding_all rfl)⟩

end PSA
